import Mathlib

/-!
Verification of the Markdown Document Converter (`src/js/app.js`) against its
natural-language specification.  The JavaScript source is shallowly embedded:
pure functions become Lean functions, the module-level mutable state
(`selectedFile`, `metadata`, `parsedHtml`) becomes explicit parameters, machine
floats used for millimetre arithmetic become exact rationals, and the external
collaborators (markdown-it, js-yaml, mermaid, html2canvas, jsPDF, docx) become
function parameters with the types the code relies on.
-/

namespace Mdc2

/-! ## PDF pagination (`generatePDF`, app.js lines 316–329)

The JavaScript computes `imgWidth = 210`, `imgHeight = canvas.height * 210 /
canvas.width` (millimetres at A4 width), places the first image at position 0,
subtracts the A4 height 297, and then loops `while (heightLeft >= 0)`, each
iteration adding a page with the image at `position = heightLeft - imgHeight`
and subtracting 297 again.  Pixel dimensions are naturals; the millimetre
arithmetic is exact rational arithmetic here (the JS doubles are exact for the
inputs the theorems use). -/

/-- The `while (heightLeft >= 0)` loop of `generatePDF`: returns the list of
vertical positions passed to `pdf.addImage` by the loop body, one per page
added inside the loop. -/
def pdfLoop (imgHeight : ℚ) (heightLeft : ℚ) : List ℚ :=
  if heightLeft < 0 then []
  else (heightLeft - imgHeight) :: pdfLoop imgHeight (heightLeft - 297)
termination_by Nat.ceil ((heightLeft + 297) / 297)
decreasing_by
  have h0 : (0 : ℚ) ≤ heightLeft := not_lt.mp (by assumption)
  have e1 : (heightLeft - 297 + 297) / 297 = heightLeft / 297 := by ring_nf
  have e2 : (heightLeft + 297) / 297 = heightLeft / 297 + 1 := by ring_nf
  have h3 : (0 : ℚ) ≤ heightLeft / 297 := by positivity
  simp only [e1, e2]
  rw [Nat.ceil_add_one h3]
  exact Nat.lt_succ_self _

/-- All `addImage` positions of `generatePDF` for a canvas of `w × h` pixels:
the initial page at position 0 followed by the loop's pages.
`imgHeight = (h * 210) / w` mirrors `(canvas.height * imgWidth) / canvas.width`. -/
def generatePDFPages (w h : ℕ) : List ℚ :=
  let imgHeight : ℚ := (h * 210 : ℚ) / w
  0 :: pdfLoop imgHeight (imgHeight - 297)

/-- Number of pages in the produced PDF: one `addImage` per page. -/
def generatePDFPageCount (w h : ℕ) : ℕ :=
  (generatePDFPages w h).length

/-! ## Output filenames (`generatePDF` line 331, `generateDOCX` line 407)

Both renderers run `metadata.title.replace(/[^a-z0-9]/gi, '_').toLowerCase()`
and append a fixed extension.  Under a non-Unicode case-insensitive regex the
class `[a-z0-9]/i` matches exactly the ASCII alphanumerics (ECMAScript
`Canonicalize` never folds a non-ASCII character onto an ASCII one), so the
replacement keeps exactly ASCII letters and digits.  After the replacement the
string is pure ASCII, for which JavaScript's `toLowerCase` is the per-character
ASCII lowering `Char.toLower`. -/

/-- Does `c` match the character class `[a-z0-9]` with the `i` flag, i.e. is it
an ASCII letter or digit? -/
def isAsciiAlnum (c : Char) : Bool :=
  (decide (97 ≤ c.toNat) && decide (c.toNat ≤ 122)) ||
  (decide (65 ≤ c.toNat) && decide (c.toNat ≤ 90)) ||
  (decide (48 ≤ c.toNat) && decide (c.toNat ≤ 57))

/-- The slug `title.replace(/[^a-z0-9]/gi, '_').toLowerCase()` that both
renderers build. -/
def codeSlug (t : String) : String :=
  String.mk ((t.data.map fun c => if isAsciiAlnum c then c else '_').map Char.toLower)

/-- Filename of the paginated path: slug + `.pdf` (app.js line 331). -/
def pdfFilename (t : String) : String := codeSlug t ++ ".pdf"

/-- Filename of the structural path: slug + `.docx` (app.js line 407). -/
def docxFilename (t : String) : String := codeSlug t ++ ".docx"

/-- Modelled from the spec's words (not the source), for comparison: a slug
with every non-alphanumeric character *removed* and the rest lowercased. -/
def specSlug (t : String) : String :=
  String.mk ((t.data.filter isAsciiAlnum).map Char.toLower)

/-- One-pass form of the slug both renderers actually compute: ASCII
alphanumerics lowercased, every other character replaced by `'_'`. -/
def amendedSlug (t : String) : String :=
  String.mk (t.data.map fun c => if isAsciiAlnum c then Char.toLower c else '_')

/-! ## JavaScript values

`jsyaml.load` can return any JavaScript value; the code then reads
`yamlData.title` etc. and applies `||`-defaulting.  We embed the fragment of
JavaScript value semantics the code exercises: property access (which throws a
`TypeError` on `null`/`undefined` and yields `undefined` on primitives),
truthiness, and stringification by template literals. -/

inductive JsValue where
  | vnull : JsValue
  | vundefined : JsValue
  | vbool : Bool → JsValue
  | vnum : Int → JsValue
  | vstr : String → JsValue
  | vobj : List (String × JsValue) → JsValue
deriving Inhabited

/-- JavaScript truthiness of the values we model (`NaN`/`-0` do not arise: the
numbers here come from YAML scalars, modelled as integers). -/
def truthy : JsValue → Bool
  | .vnull => false
  | .vundefined => false
  | .vbool b => b
  | .vnum n => n != 0
  | .vstr s => s != ""
  | .vobj _ => true

/-- Property access `v[k]` as the code performs it inside the `try` block:
throws (`.error`) on
`null`/`undefined`, yields the field or `undefined` on objects, `undefined` on
other primitives. -/
def getProp (v : JsValue) (k : String) : Except Unit JsValue :=
  match v with
  | .vnull => .error ()
  | .vundefined => .error ()
  | .vobj l => .ok ((l.lookup k).getD .vundefined)
  | _ => .ok .vundefined

/-- Total property read for values on which access cannot throw. -/
def propGet (v : JsValue) (k : String) : JsValue :=
  match v with
  | .vobj l => (l.lookup k).getD .vundefined
  | _ => .vundefined

/-- JavaScript `a || b`. -/
def jsOr (a b : JsValue) : JsValue := if truthy a then a else b

/-- Stringification as in a template literal / `Paragraph({text: …})`. -/
def jsToString : JsValue → String
  | .vnull => "null"
  | .vundefined => "undefined"
  | .vbool true => "true"
  | .vbool false => "false"
  | .vnum n => toString n
  | .vstr s => s
  | .vobj _ => "[object Object]"

/-- The `metadata` object built by `extractMetadata`. -/
structure Metadata where
  title : JsValue
  author : JsValue
  date : JsValue

/-! ## Structural renderer (`generateDOCX`, app.js lines 340–410)

`generateDOCX(style)` never reads `style`.  It pushes a TITLE-heading
paragraph when `metadata.title` is truthy, an italic author line when
`metadata.author` is truthy, one empty paragraph, and then maps the elements
returned by `querySelectorAll('h1, h2, h3, h4, h5, h6, p, pre, ul, ol')`:
`h<n>` to a heading whose level is `HeadingLevel[`HEADING_${n}`] ||
HeadingLevel.HEADING_1`, `p` to a plain paragraph, `pre` to a Courier-New
(monospace) run, and `ul`/`ol` to nothing (no branch matches their tag). -/

/-- A block-level element the `querySelectorAll` of `generateDOCX` can return,
with its `textContent`. -/
inductive El where
  | elH : ℕ → String → El
  | elP : String → El
  | elPre : String → El
  | elUl : String → El
  | elOl : String → El
deriving DecidableEq, Repr

/-- A content block appended to the docx `children`. -/
inductive DocxBlock where
  | titleBlock : String → DocxBlock
  | authorLine : String → DocxBlock
  | paragraph : String → DocxBlock
  | heading : ℕ → String → DocxBlock
  | mono : String → DocxBlock
deriving DecidableEq, Repr

/-- The lookup `HeadingLevel[HEADING_n]`: the docx enum defines `HEADING_1` …
`HEADING_6`, any other index is `undefined`. -/
def headingLevelLookup (n : ℕ) : Option ℕ :=
  if 1 ≤ n ∧ n ≤ 6 then some n else none

/-- The `elements.forEach` body of `generateDOCX`: blocks contributed by one
element (`ul`/`ol` elements are selected but match no branch). -/
def elToBlocks : El → List DocxBlock
  | .elH n t => [.heading ((headingLevelLookup n).getD 1) t]
  | .elP t => [.paragraph t]
  | .elPre t => [.mono t]
  | .elUl _ => []
  | .elOl _ => []

/-- Run `generateDOCX(style)` on metadata `m` and selected elements `els`: the
sequence of content blocks handed to the docx `Document` plus the download
filename.  The `style` parameter is declared (as in the source) and never
read. -/
def generateDOCX (style : String) (m : Metadata) (els : List El) :
    List DocxBlock × String :=
  let _ := style
  ((if truthy m.title then [DocxBlock.titleBlock (jsToString m.title)] else []) ++
   (if truthy m.author then
      [DocxBlock.authorLine ("Автор: " ++ jsToString m.author)] else []) ++
   [DocxBlock.paragraph ""] ++
   els.flatMap elToBlocks,
   docxFilename (jsToString m.title))

/-! ## File validation gate (`processFile`, app.js lines 103–143)

`processFile` first checks the extension (`file.name.split('.').pop()
.toLowerCase()` against `['md', 'markdown', 'txt']`), then the size cap
`file.size > 10 * 1024 * 1024`, and only then reads the file, extracts
metadata, renders markdown and materializes diagrams.  The collaborators
(`md.render` and `jsyaml.load`) are parameters, so "never invoked" is
expressed as the result not depending on them. -/

inductive ProcErr where
  | unsupportedFormat : ProcErr
  | oversizeInput : ProcErr
deriving DecidableEq, Repr

/-- JavaScript `name.split(dot)`: split a character list at every dot. -/
def splitOnDot : List Char → List (List Char)
  | [] => [[]]
  | c :: rest =>
    let r := splitOnDot rest
    if c = '.' then [] :: r
    else
      match r with
      | [] => [[c]]
      | s :: ss => (c :: s) :: ss

/-- The extension `file.name.split(dot).pop().toLowerCase()` (per-character
ASCII lowering;
the comparison targets are ASCII). -/
def getExtension (name : String) : String :=
  String.mk ((((splitOnDot name.data).getLastD []).map Char.toLower))

def validExtensions : List String := ["md", "markdown", "txt"]

/-! ## Front-matter matching (`extractMetadata` line 157, `removeFrontMatter`
line 182)

Both functions apply the same anchored regex
`/^---\s*\n([\s\S]*?)\n---\s*\n/` (the capture group, present only in the
extractor's copy, does not affect matching).  We embed an exact backtracking
matcher for this one pattern: after the literal `---`, the greedy `\s*\n`
tries the longest whitespace run ending in a newline first and backtracks
outward on failure; the lazy `([\s\S]*?)` tries the shortest interior first;
the final `\s*\n` is greedy and, being the end of the pattern, commits to its
longest alternative. -/

/-- ECMAScript `\s` (WhiteSpace ∪ LineTerminator). -/
def jsSpace (c : Char) : Bool :=
  let n := c.toNat
  (n == 0x9) || (n == 0xA) || (n == 0xB) || (n == 0xC) || (n == 0xD) ||
  (n == 0x20) || (n == 0xA0) || (n == 0x1680) ||
  (decide (0x2000 ≤ n) && decide (n ≤ 0x200A)) ||
  (n == 0x2028) || (n == 0x2029) || (n == 0x202F) || (n == 0x205F) ||
  (n == 0x3000) || (n == 0xFEFF)

/-- Length of the maximal `\s*` prefix. -/
def wsLen (t : List Char) : ℕ := (t.takeWhile jsSpace).length

/-- All ways `\s*` followed by `\n` can consume a prefix of `t`: the positions
`j` with `t[0..j)` whitespace and `t[j] = '\n'` (ascending).  Since `'\n'` is
itself whitespace, these are exactly the newline positions inside the maximal
whitespace prefix. -/
def nlCands (t : List Char) : List ℕ :=
  (List.range (wsLen t)).filter fun j => t.get? j = some '\n'

/-- The trailing `\s*\n` of the pattern: greedy, and final, so it commits to
the largest candidate.  Returns what follows the consumed prefix. -/
def closingRest (v : List Char) : Option (List Char) :=
  (nlCands v).getLast?.map fun j => v.drop (j + 1)

/-- The lazy `([\s\S]*?)\n---\s*\n` tail: the smallest interior length `k`
such that `u` continues with `"\n---"` and then a `\s*\n` match; returns the
interior length and the text after the whole match. -/
def interiorSearch (u : List Char) : Option (ℕ × List Char) :=
  ((List.range (u.length + 1)).find? fun k =>
      decide ((u.drop k).take 4 = ['\n', '-', '-', '-']) &&
      (closingRest (u.drop (k + 4))).isSome).bind
    fun k => (closingRest (u.drop (k + 4))).map fun rest => (k, rest)

/-- The opening `\s*\n` (greedy, with the rest of the pattern as its
continuation): candidates in descending order, first one whose continuation
succeeds wins. -/
def openingSearch (t : List Char) : Option (ℕ × ℕ × List Char) :=
  (nlCands t).reverse.findSome? fun j =>
    (interiorSearch (t.drop (j + 1))).map fun p => (j, p.1, p.2)

/-- Match `/^---\s*\n([\s\S]*?)\n---\s*\n/` against `s`.  `some (g, rest)`
means the regex matched a prefix of `s` with capture group `g` and `rest`
remaining after the match; `none` means no match. -/
def fmMatch (s : List Char) : Option (List Char × List Char) :=
  if s.take 3 = ['-', '-', '-'] then
    (openingSearch (s.drop 3)).map fun p => ((s.drop 3).drop (p.1 + 1) |>.take p.2.1, p.2.2)
  else none

/-- Function `removeFrontMatter` (app.js lines 181–184): replace the first (anchored)
match with the empty string, i.e. keep only what follows the match. -/
def removeFrontMatter (content : String) : String :=
  match fmMatch content.data with
  | some p => String.mk p.2
  | none => content

/-! ## Metadata extraction (`extractMetadata`, app.js lines 156–178)

The module-level `selectedFile` becomes the parameter `selectedFile : Option
String` (the file name), `new Date().toLocaleDateString('ru-RU')` becomes the
parameter `now`, and `jsyaml.load` becomes the parameter `yamlLoad`, which
either throws (`.error`) or returns a JavaScript value. -/

/-- JavaScript `selectedFile.name.replace(/\.(md|markdown|txt)$/, '')`: strip one of the
three accepted extensions from the end, if present. -/
def stripExt (n : String) : String :=
  if (".md".data).isSuffixOf n.data then String.mk (n.data.take (n.data.length - 3))
  else if (".markdown".data).isSuffixOf n.data then String.mk (n.data.take (n.data.length - 9))
  else if (".txt".data).isSuffixOf n.data then String.mk (n.data.take (n.data.length - 4))
  else n

/-- The fully defaulted metadata returned when no front-matter block matches
or the `try` block throws (lines 173–177). -/
def defaultMetadata (selectedFile : Option String) (now : String) : Metadata :=
  { title := .vstr (match selectedFile with
      | some n => stripExt n
      | none => "Документ")
    author := .vstr ""
    date := .vstr now }

/-- The `try` body once `jsyaml.load` has produced `v` (lines 162–167): three
property reads, each of which throws when `v` is `null`/`undefined`, then
`||`-defaulting. -/
def extractFromYaml (now : String) (v : JsValue) : Except Unit Metadata := do
  let t ← getProp v "title"
  let a ← getProp v "author"
  let d ← getProp v "date"
  pure { title := jsOr t (.vstr "Документ")
         author := jsOr a (.vstr "")
         date := jsOr d (.vstr now) }

/-- Function `extractMetadata` (app.js lines 156–178): match the front-matter regex;
on a match run the `try`-block (YAML load then defaulted field reads), any
thrown error falling through to the defaults; with no match return the
defaults directly. -/
def extractMetadata (yamlLoad : String → Except Unit JsValue)
    (selectedFile : Option String) (now : String) (content : String) : Metadata :=
  match fmMatch content.data with
  | some p =>
    match (yamlLoad (String.mk p.1)).bind (extractFromYaml now) with
    | .ok m => m
    | .error _ => defaultMetadata selectedFile now
  | none => defaultMetadata selectedFile now

/-- Is `v` one of the primitive non-null values (`boolean`, `number`,
`string`), on which property access yields `undefined` without throwing? -/
def isBareScalar : JsValue → Bool
  | .vbool _ => true
  | .vnum _ => true
  | .vstr _ => true
  | _ => false

/-! ## Diagram materialization (`processMermaidDiagrams`, app.js lines
187–209)

The rendered HTML is modelled at block granularity: each
`code.language-mermaid` block (with its enclosing `pre`), each already
rendered `div.mermaid-diagram` container, and any other markup.
`querySelectorAll` snapshots the diagram blocks in document order; each is
rendered with the positional id `mermaid-${i}`; a successful render replaces
the block with a container, a rejected render is caught, logged and leaves
the block untouched.  The renderer is the parameter `render`; its result
being `Except` while the traversal returns a plain list is the model of "a
per-block failure never propagates". -/

inductive HBlock where
  | mermaidCode : String → HBlock
  | diagramDiv : String → HBlock
  | htmlOther : String → HBlock
deriving DecidableEq, Repr

def isMermaid : HBlock → Bool
  | .mermaidCode _ => true
  | _ => false

def isDiagram : HBlock → Bool
  | .diagramDiv _ => true
  | _ => false

/-- Number of `code.language-mermaid` blocks. -/
def mermaidCount (l : List HBlock) : ℕ := (l.filter isMermaid).length

/-- Number of rendered-diagram containers. -/
def diagramCount (l : List HBlock) : ℕ := (l.filter isDiagram).length

/-- The `for` loop of `processMermaidDiagrams` with the counter `i` of the
next diagram id: render each diagram block in order, substitute on success,
keep the original on failure, leave every other block alone. -/
def processMermaidDiagrams (render : ℕ → String → Except String String) :
    ℕ → List HBlock → List HBlock
  | _, [] => []
  | i, .mermaidCode src :: rest =>
    (match render i src with
     | .ok svg => HBlock.diagramDiv svg
     | .error _ => HBlock.mermaidCode src) ::
      processMermaidDiagrams render (i + 1) rest
  | i, b :: rest => b :: processMermaidDiagrams render i rest

/-! ## `processFile` (app.js lines 103–143)

Validation gate followed by the conversion pipeline.  The grammar engine
`md.render` is the parameter `mdRender` (producing block-level HTML), the
diagram renderer is `render`, and the YAML loader/clock as above.  The file's
content is a parameter: the gate runs before `readFileAsText`, so a rejected
file's content is never inspected. -/

def processFile (mdRender : String → List HBlock)
    (render : ℕ → String → Except String String)
    (yamlLoad : String → Except Unit JsValue) (now : String)
    (name : String) (size : ℕ) (content : String) :
    Except ProcErr (Metadata × List HBlock) :=
  if ¬ validExtensions.contains (getExtension name) then .error .unsupportedFormat
  else if size > 10 * 1024 * 1024 then .error .oversizeInput
  else
    .ok (extractMetadata yamlLoad (some name) now content,
         processMermaidDiagrams render 0 (mdRender (removeFrontMatter content)))

/-! # Theorems -/

/-! ## Pagination lemmas -/

lemma pdfLoop_of_neg {img hl : ℚ} (h : hl < 0) : pdfLoop img hl = [] := by
  unfold pdfLoop
  exact if_pos h

lemma pdfLoop_of_nonneg {img hl : ℚ} (h : ¬ hl < 0) :
    pdfLoop img hl = (hl - img) :: pdfLoop img (hl - 297) := by
  conv_lhs => unfold pdfLoop
  exact if_neg h

/-- The loop emits `m + 1` pages when entered with `heightLeft = m * 297`. -/
lemma pdfLoop_length_natMul (img : ℚ) (m : ℕ) :
    (pdfLoop img ((m : ℚ) * 297)).length = m + 1 := by
  induction m with
  | zero =>
    rw [show ((0 : ℕ) : ℚ) * 297 = 0 by norm_num,
        pdfLoop_of_nonneg (by norm_num),
        show (0 : ℚ) - 297 = -297 by norm_num,
        pdfLoop_of_neg (by norm_num)]
    rfl
  | succ k ih =>
    rw [pdfLoop_of_nonneg (not_lt.mpr (by push_cast; positivity)),
        show ((((k : ℕ) + 1 : ℕ) : ℚ)) * 297 - 297 = (k : ℚ) * 297 by push_cast; ring]
    simp [ih]

/-- C1 (amended): when the scaled image height is exactly `n` times the page
height of 297 mm (`n ≥ 1`), `generatePDF` emits `n + 1` pages, not `n`: the
`while (heightLeft >= 0)` test also fires when the remaining height is exactly
zero, emitting one page past the content. -/
theorem c1_exact_multiple_pagecount (w h n : ℕ) (hn : 1 ≤ n)
    (himg : ((h : ℚ) * 210) / (w : ℚ) = (n : ℚ) * 297) :
    generatePDFPageCount w h = n + 1 := by
  unfold generatePDFPageCount generatePDFPages
  simp only [himg, List.length_cons]
  have hsub : (n : ℚ) * 297 - 297 = ((n - 1 : ℕ) : ℚ) * 297 := by
    rw [Nat.cast_sub hn]
    push_cast
    ring
  rw [hsub, pdfLoop_length_natMul]
  omega

/-- C1 (witness for the amended theorem): a 210×297-pixel canvas scales to an
image height of exactly 1 × 297 mm and produces 2 pages. -/
theorem c1_witness :
    1 ≤ 1 ∧ (((297 : ℕ) : ℚ) * 210) / ((210 : ℕ) : ℚ) = ((1 : ℕ) : ℚ) * 297 ∧
    generatePDFPageCount 210 297 = 1 + 1 :=
  ⟨le_refl 1, by norm_num,
   c1_exact_multiple_pagecount 210 297 1 (le_refl 1) (by norm_num)⟩

/-- C1 (counterexample to the claim as stated): with the scaled image height
exactly 1 × 297 mm (canvas 210×297 at width 210 mm), the claim demands exactly
1 page, but `generatePDF` produces 2. -/
theorem c1_counterexample :
    (((297 : ℕ) : ℚ) * 210) / ((210 : ℕ) : ℚ) = ((1 : ℕ) : ℚ) * 297 ∧
    generatePDFPageCount 210 297 ≠ 1 := by
  constructor
  · norm_num
  · unfold generatePDFPageCount generatePDFPages
    have h297 : ((297 : ℕ) : ℚ) * 210 / ((210 : ℕ) : ℚ) = ((1 : ℕ) : ℚ) * 297 := by
      norm_num
    simp only [h297, List.length_cons]
    rw [show ((1 : ℕ) : ℚ) * 297 - 297 = ((0 : ℕ) : ℚ) * 297 by push_cast; ring,
        pdfLoop_length_natMul]
    omega

/-! ## Filename slug -/

lemma codeSlug_eq_amendedSlug (t : String) : codeSlug t = amendedSlug t := by
  unfold codeSlug amendedSlug
  rw [List.map_map]
  congr 1
  apply List.map_congr_left
  intro c _
  by_cases h : isAsciiAlnum c = true
  · simp [h]
  · simp [h, Char.toLower]

/-- C2 (amended): both renderers derive the filename by one and the same rule
— the title with every ASCII alphanumeric lowercased and every other
character replaced by `'_'` (not removed) — followed by the fixed extension
`.pdf` resp. `.docx`. -/
theorem c2_filename_rule (t : String) :
    pdfFilename t = amendedSlug t ++ ".pdf" ∧
    docxFilename t = amendedSlug t ++ ".docx" := by
  unfold pdfFilename docxFilename
  rw [codeSlug_eq_amendedSlug]
  exact ⟨rfl, rfl⟩

/-- C2 (counterexample to the claim as stated): for the title `"a b"` the
claimed rule (non-alphanumerics removed) yields `"ab.pdf"`, but `generatePDF`
names the file `"a_b.pdf"` — the space is replaced by an underscore, not
removed. -/
theorem c2_counterexample :
    pdfFilename "a b" = "a_b.pdf" ∧ specSlug "a b" ++ ".pdf" = "ab.pdf" ∧
    pdfFilename "a b" ≠ specSlug "a b" ++ ".pdf" := by
  refine ⟨by decide, by decide, ?_⟩
  decide

/-! ## Oversize gate -/

/-- C7 (amended): an input over the 10 MiB cap is never processed: for a
supported extension it is rejected with the oversize error; with an
unsupported extension the extension check fires first and it is rejected with
the format error instead; in both cases the result does not depend on the
grammar engine, the diagram renderer, the YAML loader or the file's content —
they are never invoked. -/
theorem c7_oversize_gate (name : String) (size : ℕ)
    (hsize : size > 10 * 1024 * 1024) :
    (getExtension name ∈ validExtensions →
      ∀ mdR r yl now content,
        processFile mdR r yl now name size content = .error .oversizeInput) ∧
    (∀ mdR r yl now content mdR' r' yl' now' content',
      processFile mdR r yl now name size content =
        processFile mdR' r' yl' now' name size content') ∧
    (∀ mdR r yl now content,
      processFile mdR r yl now name size content = .error .unsupportedFormat ∨
      processFile mdR r yl now name size content = .error .oversizeInput) := by
  by_cases hext : getExtension name ∈ validExtensions
  · refine ⟨fun _ mdR r yl now content => ?_, fun _ _ _ _ _ _ _ _ _ _ => ?_,
      fun mdR r yl now content => Or.inr ?_⟩ <;>
      simp [processFile, hext, hsize]
  · refine ⟨fun hc => absurd hc hext, fun _ _ _ _ _ _ _ _ _ _ => ?_,
      fun mdR r yl now content => Or.inl ?_⟩ <;>
      simp [processFile, hext]

/-- C7 (witness for the amended theorem): an 11 MiB `.md` file is rejected
with the oversize error, whatever its content. -/
theorem c7_witness :
    (10 * 1024 * 1024 + 1 : ℕ) > 10 * 1024 * 1024 ∧
    getExtension "big.md" ∈ validExtensions ∧
    processFile (fun _ => []) (fun _ _ => .error "") (fun _ => .error ()) "d"
      "big.md" (10 * 1024 * 1024 + 1) "# hi" = .error .oversizeInput :=
  ⟨by omega, by decide,
   (c7_oversize_gate "big.md" (10 * 1024 * 1024 + 1) (by omega)).1 (by decide)
     (fun _ => []) (fun _ _ => .error "") (fun _ => .error ()) "d" "# hi"⟩

/-- C7 (counterexample to the claim as stated): an oversize file named
`big.exe` is rejected, but with the unsupported-format error, not the oversize
error — the extension check runs before the size check. -/
theorem c7_counterexample :
    processFile (fun _ => []) (fun _ _ => .error "") (fun _ => .error ()) "d"
      "big.exe" (10 * 1024 * 1024 + 1) "" = .error .unsupportedFormat ∧
    (Except.error .unsupportedFormat :
        Except ProcErr (Metadata × List HBlock)) ≠ .error .oversizeInput := by
  constructor
  · rfl
  · intro h
    exact absurd (Except.error.inj h) (by decide)

/-! ## Structural renderer -/

/-- C8: on a fragment consisting of an `h1`, a plain paragraph and a `pre`
block, `generateDOCX` emits exactly the three content blocks heading-level-1,
plain paragraph and monospace, in document order, preceded by the title block
(title truthy), the italic author line (author truthy) and one empty separator
paragraph; and the heading mapping sends `h1`–`h6` to the same level, any
other level defaulting to 1. -/
theorem c8_structural_blocks (style : String) (m : Metadata) (t1 t2 t3 : String)
    (htitle : truthy m.title = true) (hauthor : truthy m.author = true) :
    (generateDOCX style m [.elH 1 t1, .elP t2, .elPre t3]).1 =
      [DocxBlock.titleBlock (jsToString m.title),
       DocxBlock.authorLine ("Автор: " ++ jsToString m.author),
       DocxBlock.paragraph "",
       DocxBlock.heading 1 t1, DocxBlock.paragraph t2, DocxBlock.mono t3] ∧
    (∀ n t, elToBlocks (.elH n t) =
      [DocxBlock.heading (if 1 ≤ n ∧ n ≤ 6 then n else 1) t]) := by
  constructor
  · simp [generateDOCX, htitle, hauthor, elToBlocks, headingLevelLookup]
  · intro n t
    simp only [elToBlocks, headingLevelLookup]
    split <;> simp

/-- C8 (witness): concrete metadata with truthy title and author. -/
theorem c8_witness :
    truthy (JsValue.vstr "T") = true ∧ truthy (JsValue.vstr "A") = true ∧
    (generateDOCX "default" ⟨.vstr "T", .vstr "A", .vstr "D"⟩
        [.elH 1 "h", .elP "p", .elPre "c"]).1 =
      [DocxBlock.titleBlock "T", DocxBlock.authorLine "Автор: A",
       DocxBlock.paragraph "", DocxBlock.heading 1 "h",
       DocxBlock.paragraph "p", DocxBlock.mono "c"] :=
  ⟨by decide, by decide,
   (c8_structural_blocks "default" ⟨.vstr "T", .vstr "A", .vstr "D"⟩ "h" "p" "c"
     (by decide) (by decide)).1⟩

/-- C9: the theme selector has no effect on the structural path: for a fixed
metadata/content pair, `generateDOCX` produces the same block sequence and
filename for every pair of theme values — its `style` parameter is never
read. -/
theorem c9_theme_independence (s1 s2 : String) (m : Metadata) (els : List El) :
    generateDOCX s1 m els = generateDOCX s2 m els := rfl

/-! ## Diagram materialization lemmas -/

lemma mermaidCount_nil : mermaidCount [] = 0 := rfl

lemma mermaidCount_cons_m (src : String) (l : List HBlock) :
    mermaidCount (.mermaidCode src :: l) = mermaidCount l + 1 := by
  simp [mermaidCount, isMermaid]

lemma mermaidCount_cons_d (s : String) (l : List HBlock) :
    mermaidCount (.diagramDiv s :: l) = mermaidCount l := by
  simp [mermaidCount, isMermaid]

lemma mermaidCount_cons_o (s : String) (l : List HBlock) :
    mermaidCount (.htmlOther s :: l) = mermaidCount l := by
  simp [mermaidCount, isMermaid]

lemma diagramCount_cons_m (src : String) (l : List HBlock) :
    diagramCount (.mermaidCode src :: l) = diagramCount l := by
  simp [diagramCount, isDiagram]

lemma diagramCount_cons_d (s : String) (l : List HBlock) :
    diagramCount (.diagramDiv s :: l) = diagramCount l + 1 := by
  simp [diagramCount, isDiagram]

lemma diagramCount_cons_o (s : String) (l : List HBlock) :
    diagramCount (.htmlOther s :: l) = diagramCount l := by
  simp [diagramCount, isDiagram]

/-- When every render call the loop will make succeeds, every diagram block is
replaced by a container and everything else is untouched. -/
lemma pmd_allOk (render : ℕ → String → Except String String) :
    ∀ (blocks : List HBlock) (i : ℕ),
    (∀ j s, i ≤ j → (render j s).isOk = true) →
    mermaidCount (processMermaidDiagrams render i blocks) = 0 ∧
    diagramCount (processMermaidDiagrams render i blocks) =
      diagramCount blocks + mermaidCount blocks ∧
    (processMermaidDiagrams render i blocks).length = blocks.length := by
  intro blocks
  induction blocks with
  | nil => intro i _; simp [processMermaidDiagrams, mermaidCount, diagramCount]
  | cons b rest ih =>
    intro i hok
    cases b with
    | mermaidCode src =>
      have hsrc := hok i src (le_refl i)
      obtain ⟨svg, hsvg⟩ : ∃ svg, render i src = .ok svg := by
        cases hr : render i src with
        | ok svg => exact ⟨svg, rfl⟩
        | error e => rw [hr] at hsrc; simp [Except.isOk, Except.toBool] at hsrc
      have htail := ih (i + 1) (fun j s hj => hok j s (by omega))
      simp only [processMermaidDiagrams, hsvg]
      rw [mermaidCount_cons_d, diagramCount_cons_d, mermaidCount_cons_m,
        diagramCount_cons_m]
      simp only [List.length_cons]
      omega
    | diagramDiv svg =>
      have htail := ih i hok
      simp only [processMermaidDiagrams]
      rw [mermaidCount_cons_d, diagramCount_cons_d, mermaidCount_cons_d,
        diagramCount_cons_d]
      simp only [List.length_cons]
      omega
    | htmlOther h =>
      have htail := ih i hok
      simp only [processMermaidDiagrams]
      rw [mermaidCount_cons_o, diagramCount_cons_o, mermaidCount_cons_o,
        diagramCount_cons_o]
      simp only [List.length_cons]
      omega

/-- When exactly the render call with absolute index `f` fails and every other
call succeeds, exactly one diagram block survives: the one at diagram position
`f - i`, untouched and in place. -/
lemma pmd_oneFail (render : ℕ → String → Except String String) (f : ℕ)
    (hFail : ∀ s, (render f s).isOk = false)
    (hOk : ∀ j s, j ≠ f → (render j s).isOk = true) :
    ∀ (blocks : List HBlock) (i : ℕ), i ≤ f → f < i + mermaidCount blocks →
    mermaidCount (processMermaidDiagrams render i blocks) = 1 ∧
    diagramCount (processMermaidDiagrams render i blocks) + 1 =
      diagramCount blocks + mermaidCount blocks ∧
    (processMermaidDiagrams render i blocks).length = blocks.length ∧
    ∃ p src, blocks.get? p = some (.mermaidCode src) ∧
      mermaidCount (blocks.take p) = f - i ∧
      (processMermaidDiagrams render i blocks).get? p = some (.mermaidCode src) := by
  intro blocks
  induction blocks with
  | nil =>
    intro i hif hlt
    rw [mermaidCount_nil] at hlt
    omega
  | cons b rest ih =>
    intro i hif hlt
    cases b with
    | mermaidCode src =>
      by_cases hfi : f = i
      · -- the failing call is this block's: it stays, the tail all succeeds
        subst hfi
        obtain ⟨e, he⟩ : ∃ e, render f src = .error e := by
          have hsrc := hFail src
          cases hr : render f src with
          | ok svg => rw [hr] at hsrc; simp [Except.isOk, Except.toBool] at hsrc
          | error e => exact ⟨e, rfl⟩
        have htail := pmd_allOk render rest (f + 1)
          (fun j s hj => hOk j s (by omega))
        simp only [processMermaidDiagrams, he]
        refine ⟨?_, ?_, ?_, 0, src, rfl, ?_, rfl⟩
        · rw [mermaidCount_cons_m]; omega
        · rw [diagramCount_cons_m, diagramCount_cons_m, mermaidCount_cons_m]
          omega
        · simp only [List.length_cons]; omega
        · simp [mermaidCount]
      · -- this block's call succeeds; the failing one is further down
        have hne : i ≠ f := fun h => hfi h.symm
        obtain ⟨svg, hsvg⟩ : ∃ svg, render i src = .ok svg := by
          have hsrc := hOk i src hne
          cases hr : render i src with
          | ok svg => exact ⟨svg, rfl⟩
          | error e => rw [hr] at hsrc; simp [Except.isOk, Except.toBool] at hsrc
        have hmc : mermaidCount (HBlock.mermaidCode src :: rest) =
            mermaidCount rest + 1 := mermaidCount_cons_m src rest
        have htail := ih (i + 1) (by omega) (by rw [hmc] at hlt; omega)
        obtain ⟨hm, hd, hl, p, src', hget, htake, hout⟩ := htail
        simp only [processMermaidDiagrams, hsvg]
        refine ⟨?_, ?_, ?_, p + 1, src', ?_, ?_, ?_⟩
        · rw [mermaidCount_cons_d]; omega
        · rw [diagramCount_cons_d, diagramCount_cons_m, mermaidCount_cons_m]
          omega
        · simp only [List.length_cons]; omega
        · simpa using hget
        · rw [List.take_succ_cons, mermaidCount_cons_m]
          omega
        · simpa using hout
    | diagramDiv svg =>
      have hmc : mermaidCount (HBlock.diagramDiv svg :: rest) = mermaidCount rest :=
        mermaidCount_cons_d svg rest
      have htail := ih i hif (by rw [hmc] at hlt; omega)
      obtain ⟨hm, hd, hl, p, src', hget, htake, hout⟩ := htail
      simp only [processMermaidDiagrams]
      refine ⟨?_, ?_, ?_, p + 1, src', ?_, ?_, ?_⟩
      · rw [mermaidCount_cons_d]; omega
      · rw [diagramCount_cons_d, diagramCount_cons_d, mermaidCount_cons_d]
        omega
      · simp only [List.length_cons]; omega
      · simpa using hget
      · rw [List.take_succ_cons, mermaidCount_cons_d]
        omega
      · simpa using hout
    | htmlOther h =>
      have hmc : mermaidCount (HBlock.htmlOther h :: rest) = mermaidCount rest :=
        mermaidCount_cons_o h rest
      have htail := ih i hif (by rw [hmc] at hlt; omega)
      obtain ⟨hm, hd, hl, p, src', hget, htake, hout⟩ := htail
      simp only [processMermaidDiagrams]
      refine ⟨?_, ?_, ?_, p + 1, src', ?_, ?_, ?_⟩
      · rw [mermaidCount_cons_o]; omega
      · rw [diagramCount_cons_o, diagramCount_cons_o, mermaidCount_cons_o]
        omega
      · simp only [List.length_cons]; omega
      · simpa using hget
      · rw [List.take_succ_cons, mermaidCount_cons_o]
        omega
      · simpa using hout

/-- C3: on a fragment with `N` diagram blocks, if the `k`-th render call
(1-indexed, document order) fails and all others succeed,
`processMermaidDiagrams` still returns a full fragment (it is a total
function — no exception escapes the per-block `try`/`catch`): the output has
the same length, `N − 1` new rendered-diagram containers
(`diagramCount + 1 = diagramCount_input + N`), exactly one remaining diagram
code block, and that block is the original `k`-th one, untouched, at its
original document position. -/
theorem c3_diagram_fault_isolation (render : ℕ → String → Except String String)
    (blocks : List HBlock) (N k : ℕ) (hN : N = mermaidCount blocks)
    (hk1 : 1 ≤ k) (hkN : k ≤ N)
    (hFail : ∀ s, (render (k - 1) s).isOk = false)
    (hOk : ∀ j s, j ≠ k - 1 → (render j s).isOk = true) :
    (processMermaidDiagrams render 0 blocks).length = blocks.length ∧
    mermaidCount (processMermaidDiagrams render 0 blocks) = 1 ∧
    diagramCount (processMermaidDiagrams render 0 blocks) + 1 =
      diagramCount blocks + N ∧
    ∃ p src, blocks.get? p = some (.mermaidCode src) ∧
      mermaidCount (blocks.take p) = k - 1 ∧
      (processMermaidDiagrams render 0 blocks).get? p = some (.mermaidCode src) := by
  obtain ⟨hm, hd, hl, p, src, hget, htake, hout⟩ :=
    pmd_oneFail render (k - 1) hFail hOk blocks 0 (by omega) (by omega)
  exact ⟨hl, hm, by omega, p, src, hget, by omega, hout⟩

/-- C3 (witness): three blocks, two diagrams, the first (`k = 1`) failing: the
first diagram survives untouched at position 0, the second is replaced. -/
theorem c3_witness :
    (2 : ℕ) = mermaidCount [HBlock.mermaidCode "a", .htmlOther "t", .mermaidCode "b"] ∧
    (processMermaidDiagrams (fun i _ => if i = 0 then .error "boom" else .ok "svg") 0
        [HBlock.mermaidCode "a", .htmlOther "t", .mermaidCode "b"]).length = 3 ∧
    mermaidCount (processMermaidDiagrams
        (fun i _ => if i = 0 then .error "boom" else .ok "svg") 0
        [HBlock.mermaidCode "a", .htmlOther "t", .mermaidCode "b"]) = 1 ∧
    ∃ p src,
      [HBlock.mermaidCode "a", .htmlOther "t", .mermaidCode "b"].get? p =
        some (.mermaidCode src) ∧
      mermaidCount ([HBlock.mermaidCode "a", .htmlOther "t", .mermaidCode "b"].take p) = 0 ∧
      (processMermaidDiagrams (fun i _ => if i = 0 then .error "boom" else .ok "svg") 0
          [HBlock.mermaidCode "a", .htmlOther "t", .mermaidCode "b"]).get? p =
        some (.mermaidCode src) := by
  have h := c3_diagram_fault_isolation
    (fun i _ => if i = 0 then .error "boom" else .ok "svg")
    [HBlock.mermaidCode "a", .htmlOther "t", .mermaidCode "b"] 2 1
    (by decide) (by decide) (by decide)
    (by intro s; simp [Except.isOk, Except.toBool])
    (by intro j s hj; simp [Except.isOk, Except.toBool, hj])
  exact ⟨by decide, h.1.trans (by decide), h.2.1, h.2.2.2⟩

/-! ## Front-matter matcher soundness -/

lemma mem_of_getLast? {α : Type} {l : List α} {a : α} (h : l.getLast? = some a) :
    a ∈ l := by
  cases l with
  | nil => exact absurd h (by simp)
  | cons x xs =>
    rw [List.getLast?_eq_getLast (x :: xs) (by simp)] at h
    rw [← Option.some.inj h]
    exact List.getLast_mem _

lemma nlCands_mem {t : List Char} {j : ℕ} (h : j ∈ nlCands t) :
    j < wsLen t ∧ t.get? j = some '\n' := by
  unfold nlCands at h
  rw [List.mem_filter] at h
  exact ⟨List.mem_range.mp h.1, of_decide_eq_true h.2⟩

/-- Every character of `t.take j` is whitespace when `j` does not exceed the
maximal whitespace run. -/
lemma mem_take_wsLen : ∀ (t : List Char) (j : ℕ), j ≤ wsLen t →
    ∀ c ∈ t.take j, jsSpace c = true := by
  intro t
  induction t with
  | nil => intro j _ c hc; simp at hc
  | cons x xs ih =>
    intro j hj c hc
    unfold wsLen at hj
    rw [List.takeWhile_cons] at hj
    by_cases hx : jsSpace x = true
    · rw [if_pos hx] at hj
      cases j with
      | zero => simp at hc
      | succ j' =>
        rw [List.take_succ_cons] at hc
        rcases List.mem_cons.mp hc with hcx | hc'
        · rw [hcx]; exact hx
        · exact ih j' (by simpa using hj) c hc'
    · rw [if_neg hx] at hj
      simp only [List.length_nil, Nat.le_zero] at hj
      subst hj
      simp at hc

/-- If `t.get? j = some c` then `t` splits as `take j ++ c :: drop (j+1)`. -/
lemma get?_split {t : List Char} {j : ℕ} {c : Char} (h : t.get? j = some c) :
    t = t.take j ++ c :: t.drop (j + 1) := by
  rw [List.get?_eq_getElem?] at h
  obtain ⟨hlt, hc⟩ := List.getElem?_eq_some.mp h
  conv_lhs => rw [← List.take_append_drop j t]
  rw [List.drop_eq_getElem_cons hlt, hc]

lemma closingRest_eq_some {v rest : List Char} (h : closingRest v = some rest) :
    ∃ j, (∀ c ∈ v.take j, jsSpace c = true) ∧ v.get? j = some '\n' ∧
      rest = v.drop (j + 1) := by
  unfold closingRest at h
  obtain ⟨j, hj, hrest⟩ := Option.map_eq_some'.mp h
  obtain ⟨hlt, hget⟩ := nlCands_mem (mem_of_getLast? hj)
  exact ⟨j, mem_take_wsLen v j (le_of_lt hlt), hget, hrest.symm⟩

lemma interiorSearch_eq_some {u : List Char} {k : ℕ} {rest : List Char}
    (h : interiorSearch u = some (k, rest)) :
    (u.drop k).take 4 = ['\n', '-', '-', '-'] ∧
      closingRest (u.drop (k + 4)) = some rest := by
  unfold interiorSearch at h
  obtain ⟨k', hfind, hmap⟩ := Option.bind_eq_some.mp h
  obtain ⟨rest', hrest', heq⟩ := Option.map_eq_some'.mp hmap
  have hk : k' = k := congrArg Prod.fst heq
  have hr : rest' = rest := congrArg Prod.snd heq
  subst k'
  subst rest'
  have hp := List.find?_some hfind
  rw [Bool.and_eq_true] at hp
  exact ⟨of_decide_eq_true hp.1, hrest'⟩

lemma openingSearch_eq_some {t : List Char} {j k : ℕ} {rest : List Char}
    (h : openingSearch t = some (j, k, rest)) :
    (∀ c ∈ t.take j, jsSpace c = true) ∧ t.get? j = some '\n' ∧
      interiorSearch (t.drop (j + 1)) = some (k, rest) := by
  unfold openingSearch at h
  obtain ⟨j', hj'mem, hj'⟩ := List.exists_of_findSome?_eq_some h
  obtain ⟨p, hp, heq⟩ := Option.map_eq_some'.mp hj'
  have hjj : j' = j := congrArg (fun q => q.1) heq
  have hps : p = (k, rest) := by
    have h1 : p.1 = k := congrArg (fun q => q.2.1) heq
    have h2 : p.2 = rest := congrArg (fun q => q.2.2) heq
    cases p
    simp only at h1 h2
    rw [h1, h2]
  subst hjj
  rw [hps] at hp
  obtain ⟨hlt, hget⟩ := nlCands_mem (List.mem_reverse.mp hj'mem)
  exact ⟨mem_take_wsLen t j' (le_of_lt hlt), hget, hp⟩

/-- Soundness of the front-matter matcher: a successful match decomposes the
input into the literal `---`, a whitespace run `a` ending in the opening
newline, the captured interior, the closing `\n---`, a whitespace run `b`
ending in a newline, and the remainder. -/
lemma fmMatch_decomp {s g rest : List Char} (h : fmMatch s = some (g, rest)) :
    ∃ a b : List Char,
      (∀ c ∈ a, jsSpace c = true) ∧ (∀ c ∈ b, jsSpace c = true) ∧
      s = ['-', '-', '-'] ++ a ++ '\n' ::
        (g ++ '\n' :: '-' :: '-' :: '-' :: (b ++ '\n' :: rest)) := by
  unfold fmMatch at h
  split at h
  case isFalse => exact absurd h (by simp)
  case isTrue htake3 =>
    obtain ⟨p, hp, heq⟩ := Option.map_eq_some'.mp h
    obtain ⟨j, k, rest'⟩ := p
    have hg : ((s.drop 3).drop (j + 1)).take k = g := congrArg (fun q => q.1) heq
    have hr : rest' = rest := congrArg (fun q => q.2) heq
    subst rest'
    obtain ⟨ha, hget, hint⟩ := openingSearch_eq_some hp
    obtain ⟨hdelim, hclose⟩ := interiorSearch_eq_some hint
    obtain ⟨j2, hb, hget2, hrest2⟩ := closingRest_eq_some hclose
    refine ⟨(s.drop 3).take j, ((s.drop 3).drop (j + 1)).drop (k + 4) |>.take j2,
      ha, hb, ?_⟩
    have e0 : s = s.take 3 ++ s.drop 3 := (List.take_append_drop 3 s).symm
    have e1 : s.drop 3 =
        (s.drop 3).take j ++ '\n' :: (s.drop 3).drop (j + 1) := get?_split hget
    have e2 : (s.drop 3).drop (j + 1) =
        g ++ ((s.drop 3).drop (j + 1)).drop k := by
      conv_lhs => rw [← List.take_append_drop k ((s.drop 3).drop (j + 1))]
      rw [hg]
    have e3 : ((s.drop 3).drop (j + 1)).drop k =
        '\n' :: '-' :: '-' :: '-' :: ((s.drop 3).drop (j + 1)).drop (k + 4) := by
      conv_lhs => rw [← List.take_append_drop 4 (((s.drop 3).drop (j + 1)).drop k)]
      rw [hdelim, List.drop_drop]
      rfl
    have e4 : ((s.drop 3).drop (j + 1)).drop (k + 4) =
        (((s.drop 3).drop (j + 1)).drop (k + 4)).take j2 ++ '\n' :: rest := by
      rw [hrest2] at *
      exact get?_split hget2
    calc s = s.take 3 ++ s.drop 3 := e0
      _ = ['-', '-', '-'] ++ ((s.drop 3).take j ++ '\n' :: (s.drop 3).drop (j + 1)) := by
          rw [htake3, ← e1]
      _ = ['-', '-', '-'] ++ ((s.drop 3).take j ++ '\n' ::
            (g ++ '\n' :: '-' :: '-' :: '-' ::
              ((((s.drop 3).drop (j + 1)).drop (k + 4)).take j2 ++ '\n' :: rest))) := by
          rw [← e4, ← e3, ← e2]
      _ = _ := by simp

/-- Unfolding equation of `removeFrontMatter`. -/
lemma removeFrontMatter_eq (c : String) :
    removeFrontMatter c =
      match fmMatch c.data with
      | some p => String.mk p.2
      | none => c := rfl

/-- C5: `extractMetadata` and `removeFrontMatter` agree on one front-matter
block definition (they apply the same pattern): on inputs without a match the
normalizer is the identity and extraction returns the defaults; on a match
both act on the same decomposition — the stripped prefix is exactly
`--- a \n  g  \n--- b \n` (with `a`, `b` whitespace), the body both agree on
is `rest`, and the interior the extractor hands to the YAML parser is exactly
the captured `g`. -/
theorem c5_frontmatter_agreement (content : String)
    (yl : String → Except Unit JsValue) (f : Option String) (now : String) :
    (fmMatch content.data = none →
      removeFrontMatter content = content ∧
      extractMetadata yl f now content = defaultMetadata f now) ∧
    (∀ g rest, fmMatch content.data = some (g, rest) →
      removeFrontMatter content = String.mk rest ∧
      extractMetadata yl f now content =
        (match (yl (String.mk g)).bind (extractFromYaml now) with
         | .ok m => m
         | .error _ => defaultMetadata f now) ∧
      ∃ a b, (∀ c ∈ a, jsSpace c = true) ∧ (∀ c ∈ b, jsSpace c = true) ∧
        content.data = ['-', '-', '-'] ++ a ++ '\n' ::
          (g ++ '\n' :: '-' :: '-' :: '-' :: (b ++ '\n' :: rest))) := by
  constructor
  · intro h
    constructor
    · rw [removeFrontMatter_eq, h]
    · unfold extractMetadata
      rw [h]
  · intro g rest h
    refine ⟨?_, ?_, fmMatch_decomp h⟩
    · rw [removeFrontMatter_eq, h]
    · unfold extractMetadata
      rw [h]

/-- C5 (witness): a concrete document with a front-matter block; both
components act on the same block and the body starts at `"body"`. -/
theorem c5_witness :
    fmMatch ("---\ntitle: x\n---\nbody".data) =
      some ("title: x".data, "body".data) ∧
    removeFrontMatter "---\ntitle: x\n---\nbody" = "body" :=
  ⟨by decide,
   ((c5_frontmatter_agreement "---\ntitle: x\n---\nbody" (fun _ => .error ())
       none "d").2 ("title: x".data) ("body".data) (by decide)).1⟩

/-- C4 (counterexample): `removeFrontMatter` is not idempotent.  On two
stacked delimiter blocks the first application strips only the first block and
leaves a string that itself starts with a front-matter block, which a second
application strips again. -/
theorem c4_counterexample :
    removeFrontMatter (removeFrontMatter "---\na\n---\n---\nb\n---\n") ≠
      removeFrontMatter "---\na\n---\n---\nb\n---\n" := by decide

/-- C4 (amended): `removeFrontMatter` is idempotent exactly on those inputs
whose output no longer begins with a front-matter block; a second application
strips a further leading block whenever one remains. -/
theorem c4_idempotence_iff (s : String) :
    removeFrontMatter (removeFrontMatter s) = removeFrontMatter s ↔
      fmMatch (removeFrontMatter s).data = none := by
  constructor
  · intro h
    by_contra hne
    obtain ⟨⟨g, rest⟩, hsome⟩ := Option.ne_none_iff_exists'.mp hne
    have h2 : removeFrontMatter (removeFrontMatter s) = String.mk rest := by
      rw [removeFrontMatter_eq (removeFrontMatter s), hsome]
    obtain ⟨a, b, _, _, hdec⟩ := fmMatch_decomp hsome
    have hdata : rest = (removeFrontMatter s).data := by
      have := congrArg String.data (h2.symm.trans h)
      simpa using this
    rw [hdec] at hdata
    have hlen := congrArg List.length hdata
    simp [List.length_append] at hlen
    omega
  · intro h
    rw [removeFrontMatter_eq (removeFrontMatter s), h]

/-! ## Metadata extraction defaults -/

lemma getProp_of_ne {v : JsValue} (k : String) (h1 : v ≠ JsValue.vnull)
    (h2 : v ≠ JsValue.vundefined) : getProp v k = .ok (propGet v k) := by
  cases v with
  | vnull => exact absurd rfl h1
  | vundefined => exact absurd rfl h2
  | vbool b => rfl
  | vnum n => rfl
  | vstr s => rfl
  | vobj l => rfl

lemma extractFromYaml_of_ne {v : JsValue} (now : String)
    (h1 : v ≠ JsValue.vnull) (h2 : v ≠ JsValue.vundefined) :
    extractFromYaml now v =
      .ok { title := jsOr (propGet v "title") (.vstr "Документ")
            author := jsOr (propGet v "author") (.vstr "")
            date := jsOr (propGet v "date") (.vstr now) } := by
  cases v with
  | vnull => exact absurd rfl h1
  | vundefined => exact absurd rfl h2
  | vbool b => rfl
  | vnum n => rfl
  | vstr s => rfl
  | vobj l => rfl

lemma extractMetadata_of_match {yl : String → Except Unit JsValue}
    {f : Option String} {now s : String} {g rest : List Char}
    (h : fmMatch s.data = some (g, rest)) :
    extractMetadata yl f now s =
      (match (yl (String.mk g)).bind (extractFromYaml now) with
       | Except.ok m => m
       | Except.error _ => defaultMetadata f now) := by
  unfold extractMetadata
  rw [h]

lemma bareScalar_ne_null {v : JsValue} (h : isBareScalar v = true) :
    v ≠ JsValue.vnull ∧ v ≠ JsValue.vundefined ∧ ∀ k, propGet v k = .vundefined := by
  cases v <;> simp_all [isBareScalar, propGet]

/-- C6 (amended): `extractMetadata` is a total function of its inputs — no
exception reaches the caller — and: with no front-matter match, or when the
YAML load throws, or when it yields `null`/`undefined` (whose `.title` access
throws a `TypeError` that the same `catch` absorbs), the result is the fully
defaulted metadata — title from the filename with its extension stripped (or
the fixed placeholder with no filename), empty author, current date.  When
the interior parses successfully to a bare non-null scalar, however, the
title defaults to the fixed placeholder even when a filename is known, with
empty author and current date. -/
theorem c6_defaulted_metadata (yl : String → Except Unit JsValue)
    (f : Option String) (now s : String) :
    (fmMatch s.data = none → extractMetadata yl f now s = defaultMetadata f now) ∧
    (∀ g rest, fmMatch s.data = some (g, rest) →
      (yl (String.mk g) = .error () ∨ yl (String.mk g) = .ok .vnull ∨
        yl (String.mk g) = .ok .vundefined) →
      extractMetadata yl f now s = defaultMetadata f now) ∧
    (∀ g rest v, fmMatch s.data = some (g, rest) → yl (String.mk g) = .ok v →
      isBareScalar v = true →
      extractMetadata yl f now s =
        { title := .vstr "Документ", author := .vstr "", date := .vstr now }) ∧
    (∀ n, defaultMetadata (some n) now =
      { title := .vstr (stripExt n), author := .vstr "", date := .vstr now }) ∧
    defaultMetadata none now =
      { title := .vstr "Документ", author := .vstr "", date := .vstr now } := by
  refine ⟨?_, ?_, ?_, fun n => rfl, rfl⟩
  · intro h
    unfold extractMetadata
    rw [h]
  · intro g rest h hyl
    rw [extractMetadata_of_match h]
    rcases hyl with hyl | hyl | hyl <;> rw [hyl] <;> rfl
  · intro g rest v h hyl hv
    obtain ⟨h1, h2, hprop⟩ := bareScalar_ne_null hv
    rw [extractMetadata_of_match h, hyl]
    have := extractFromYaml_of_ne (v := v) now h1 h2
    simp only [Except.bind, this, hprop]
    rfl

/-- C6 (witness for the amended theorem): front matter whose interior parses
to the number 42 — the title becomes the placeholder, not `"notes"`. -/
theorem c6_witness :
    fmMatch ("---\n42\n---\nb".data) = some ("42".data, "b".data) ∧
    isBareScalar (.vnum 42) = true ∧
    extractMetadata (fun _ => .ok (.vnum 42)) (some "notes.md") "01.01.2026"
        "---\n42\n---\nb" =
      { title := .vstr "Документ", author := .vstr "", date := .vstr "01.01.2026" } :=
  ⟨by decide, rfl,
   (c6_defaulted_metadata (fun _ => .ok (.vnum 42)) (some "notes.md")
       "01.01.2026" "---\n42\n---\nb").2.2.1 ("42".data) ("b".data) (.vnum 42)
     (by decide) rfl rfl⟩

/-- C6 (counterexample to the claim as stated): a known filename `notes.md`
and a front-matter interior that parses successfully to the non-object value
42: the claim promises the filename-derived title `"notes"`, but the code
returns the fixed placeholder. -/
theorem c6_counterexample :
    (extractMetadata (fun _ => .ok (.vnum 42)) (some "notes.md") "01.01.2026"
        "---\n42\n---\nbody").title = .vstr "Документ" ∧
    stripExt "notes.md" = "notes" ∧
    (extractMetadata (fun _ => .ok (.vnum 42)) (some "notes.md") "01.01.2026"
        "---\n42\n---\nbody").title ≠ .vstr "notes" := by
  refine ⟨rfl, by decide, fun h => ?_⟩
  have : "Документ" = "notes" := JsValue.vstr.inj h
  exact absurd this (by decide)

/-- C10 (amended): when a front-matter block is present and its interior
parses successfully to a value that is neither `null` nor `undefined`, the
result is built from that value alone — the filename never enters — and a
non-truthy `title` field yields the fixed placeholder.  When the block is
present but the load throws or yields `null`/`undefined`, the code falls back
to the fully defaulted metadata, whose title *is* filename-derived: the
filename-derived title is thus used not only when no block matches. -/
theorem c10_placeholder_policy (yl : String → Except Unit JsValue)
    (f : Option String) (now s : String) :
    (∀ g rest v, fmMatch s.data = some (g, rest) → yl (String.mk g) = .ok v →
      v ≠ JsValue.vnull → v ≠ JsValue.vundefined →
      extractMetadata yl f now s =
        { title := jsOr (propGet v "title") (.vstr "Документ")
          author := jsOr (propGet v "author") (.vstr "")
          date := jsOr (propGet v "date") (.vstr now) } ∧
      (truthy (propGet v "title") = false →
        (extractMetadata yl f now s).title = .vstr "Документ")) ∧
    (∀ g rest, fmMatch s.data = some (g, rest) →
      (yl (String.mk g) = .error () ∨ yl (String.mk g) = .ok .vnull ∨
        yl (String.mk g) = .ok .vundefined) →
      extractMetadata yl f now s = defaultMetadata f now) := by
  constructor
  · intro g rest v h hyl h1 h2
    have hmain : extractMetadata yl f now s =
        { title := jsOr (propGet v "title") (.vstr "Документ")
          author := jsOr (propGet v "author") (.vstr "")
          date := jsOr (propGet v "date") (.vstr now) } := by
      rw [extractMetadata_of_match h, hyl]
      have := extractFromYaml_of_ne (v := v) now h1 h2
      simp only [Except.bind, this]
    refine ⟨hmain, fun ht => ?_⟩
    rw [hmain]
    simp only [jsOr, ht]
    rfl
  · intro g rest h hyl
    rw [extractMetadata_of_match h]
    rcases hyl with hyl | hyl | hyl <;> rw [hyl] <;> rfl

/-- C10 (witness for the amended theorem): an object without a `title` key —
placeholder title, author taken from the block. -/
theorem c10_witness :
    fmMatch ("---\nauthor: A\n---\nb".data) = some ("author: A".data, "b".data) ∧
    truthy (propGet (.vobj [("author", .vstr "A")]) "title") = false ∧
    extractMetadata (fun _ => .ok (.vobj [("author", .vstr "A")]))
        (some "notes.md") "01.01.2026" "---\nauthor: A\n---\nb" =
      { title := .vstr "Документ", author := .vstr "A", date := .vstr "01.01.2026" } :=
  ⟨by decide, rfl,
   (((c10_placeholder_policy (fun _ => .ok (.vobj [("author", .vstr "A")]))
         (some "notes.md") "01.01.2026" "---\nauthor: A\n---\nb").1
       ("author: A".data) ("b".data) (.vobj [("author", .vstr "A")])
       (by decide) rfl (by intro hx; cases hx) (by intro hx; cases hx)).1).trans
     rfl⟩

/-- C10 (counterexample to the claim as stated): a front-matter block that
parses successfully to `null` (YAML `~`), which has no truthy `title`: the
claim demands the fixed placeholder, but the `.title` access on `null` throws,
the `catch` falls through to the defaults, and the title is the
filename-derived `"notes"` — also refuting "filename-derived only when no
block matches at all". -/
theorem c10_counterexample :
    fmMatch ("---\n~\n---\nb".data) = some ("~".data, "b".data) ∧
    (extractMetadata (fun _ => .ok .vnull) (some "notes.md") "01.01.2026"
        "---\n~\n---\nb").title = .vstr "notes" ∧
    (extractMetadata (fun _ => .ok .vnull) (some "notes.md") "01.01.2026"
        "---\n~\n---\nb").title ≠ .vstr "Документ" := by
  refine ⟨by decide, rfl, fun h => ?_⟩
  have : "notes" = "Документ" := JsValue.vstr.inj h
  exact absurd this (by decide)

end Mdc2
